import Mathlib

/-!
Verification of the persistence layer of the AI Study Assistant application
(`pro.py`): the `DatabaseManager` class, comprising the connection gateway,
the query executor, the schema migrator (`init_db` / `_try_add_column`), and
the per-entity repository methods built on top of them.

The embedding is shallow: the SQLite database file is modelled as an explicit
relational state (`DB`), each repository method as a state transition or query
over it, and the executor's error containment as explicit `Except` outcomes.
SQLite TEXT values compare bytewise; we model this with a lexicographic
comparison on the character list of a `String` (`strLt` / `strLe`), which
agrees with bytewise comparison on the ASCII data (dates, timestamps, names)
the application stores.
-/

namespace StudyAssistant

/-! ## String ordering (SQLite TEXT comparison) and `str.lower` -/

/-- Strict lexicographic order on character lists, modelling SQLite's
bytewise comparison of TEXT values. -/
def charListLt : List Char → List Char → Bool
  | [], [] => false
  | [], _ :: _ => true
  | _ :: _, [] => false
  | a :: as, b :: bs => if a < b then true else if b < a then false else charListLt as bs

/-- `a < b` on strings as SQLite compares TEXT column values. -/
def strLt (a b : String) : Bool := charListLt a.data b.data

/-- `a <= b` on strings as SQLite compares TEXT column values. -/
def strLe (a b : String) : Bool := !(strLt b a)

/-- Python's `str.lower()` (ASCII case folding suffices for the
`'general'` comparison the code performs). -/
def lower (s : String) : String := ⟨s.data.map Char.toLower⟩

theorem charListLt_cons_iff {a b : Char} {as bs : List Char} :
    charListLt (a :: as) (b :: bs) = true ↔ a < b ∨ (a = b ∧ charListLt as bs = true) := by
  rcases lt_trichotomy a b with h | h | h
  · simp [charListLt, h]
  · subst h
    simp [charListLt, lt_irrefl]
  · simp only [charListLt, if_neg (not_lt_of_gt h), if_pos h, Bool.false_eq_true, false_iff]
    rintro (hlt | ⟨rfl, _⟩)
    · exact absurd hlt (not_lt_of_gt h)
    · exact absurd h (lt_irrefl a)

theorem charListLt_irrefl (a : List Char) : charListLt a a = false := by
  induction a with
  | nil => rfl
  | cons x xs ih => simp [charListLt, lt_irrefl, ih]

theorem charListLt_trans (a : List Char) :
    ∀ b c, charListLt a b = true → charListLt b c = true → charListLt a c = true := by
  induction a with
  | nil =>
    intro b c hab hbc
    cases b with
    | nil => simp [charListLt] at hab
    | cons y ys =>
      cases c with
      | nil => simp [charListLt] at hbc
      | cons z zs => rfl
  | cons x xs ih =>
    intro b c hab hbc
    cases b with
    | nil => simp [charListLt] at hab
    | cons y ys =>
      cases c with
      | nil => simp [charListLt] at hbc
      | cons z zs =>
        rw [charListLt_cons_iff] at hab hbc ⊢
        rcases hab with hxy | ⟨hxy, hab'⟩
        · rcases hbc with hyz | ⟨hyz, _⟩
          · exact Or.inl (lt_trans hxy hyz)
          · exact Or.inl (lt_of_lt_of_eq hxy hyz)
        · rcases hbc with hyz | ⟨hyz, hbc'⟩
          · exact Or.inl (lt_of_eq_of_lt hxy hyz)
          · exact Or.inr ⟨hxy.trans hyz, ih ys zs hab' hbc'⟩

theorem charListLt_trichotomy (a : List Char) :
    ∀ b, charListLt a b = true ∨ charListLt b a = true ∨ a = b := by
  induction a with
  | nil =>
    intro b
    cases b with
    | nil => exact Or.inr (Or.inr rfl)
    | cons y ys => exact Or.inl rfl
  | cons x xs ih =>
    intro b
    cases b with
    | nil => exact Or.inr (Or.inl rfl)
    | cons y ys =>
      rcases lt_trichotomy x y with h | h | h
      · exact Or.inl (by rw [charListLt_cons_iff]; exact Or.inl h)
      · rcases ih ys with h2 | h2 | h2
        · exact Or.inl (by rw [charListLt_cons_iff]; exact Or.inr ⟨h, h2⟩)
        · exact Or.inr (Or.inl (by rw [charListLt_cons_iff]; exact Or.inr ⟨h.symm, h2⟩))
        · exact Or.inr (Or.inr (by rw [h, h2]))
      · exact Or.inr (Or.inl (by rw [charListLt_cons_iff]; exact Or.inl h))

theorem charListLt_asymm (a b : List Char) (h : charListLt a b = true) :
    charListLt b a = false := by
  cases hba : charListLt b a with
  | false => rfl
  | true =>
    have h2 := charListLt_trans a b a h hba
    rw [charListLt_irrefl] at h2
    cases h2

theorem strLe_total (a b : String) : strLe a b = true ∨ strLe b a = true := by
  unfold strLe strLt
  cases h : charListLt b.data a.data with
  | false => exact Or.inl rfl
  | true =>
    right
    rw [charListLt_asymm b.data a.data h]
    rfl

theorem strLe_trans (a b c : String) (h1 : strLe a b = true) (h2 : strLe b c = true) :
    strLe a c = true := by
  unfold strLe strLt at h1 h2 ⊢
  rw [Bool.not_eq_true'] at h1 h2 ⊢
  cases hca : charListLt c.data a.data with
  | false => rfl
  | true =>
    rcases charListLt_trichotomy b.data c.data with hbc | hcb | heq
    · have h3 := charListLt_trans b.data c.data a.data hbc hca
      rw [h1] at h3
      cases h3
    · rw [h2] at hcb
      cases hcb
    · rw [heq] at h1
      rw [h1] at hca
      cases hca

/-- The `ORDER BY name` relation (SQLite ascending TEXT order). -/
def nameLe (a b : String) : Prop := strLe a b = true

instance : DecidableRel nameLe := fun a b => by unfold nameLe; infer_instance

instance : IsTrans String nameLe := ⟨fun a b c => strLe_trans a b c⟩

instance : IsTotal String nameLe := ⟨fun a b => strLe_total a b⟩

/-! ## Connection gateway and query executor

`DatabaseManager.connect` / `close` / `execute_query` / `fetch_one` /
`fetch_all` (`pro.py` lines 25-68).  A storage statement is embedded as its
outcome: an `Except SqliteError` value standing for "the `cursor.execute`
(plus `conn.commit` for `execute_query`) on this statement and parameter
tuple either produced this value or raised this `sqlite3.Error`".
`connectOk` is the outcome of `sqlite3.connect` itself, which can also raise
(e.g. on lock timeout) before either handle attribute is assigned. -/

/-- A storage-layer error (`sqlite3.Error`), carrying its message text. -/
inductive SqliteError where
  | mk : String → SqliteError
  deriving Repr, DecidableEq

/-- The handle state of a `DatabaseManager`: its `conn` and `cursor`
attributes, each either a live handle or Python `None`. -/
structure DBManager where
  conn : Option Unit
  cursor : Option Unit
  deriving Repr, DecidableEq

/-- `DatabaseManager.close`: `if self.conn:` close the connection and reset
both handle attributes to `None`; otherwise do nothing. -/
def DBManager.close (m : DBManager) : DBManager :=
  if m.conn.isSome then { conn := none, cursor := none } else m

/-- `DatabaseManager.connect`: on success both handles are assigned (and the
foreign-key pragma is issued); if `sqlite3.connect` raises, neither attribute
has been reassigned. -/
def DBManager.connect (m : DBManager) (connectOk : Bool) : DBManager × Bool :=
  if connectOk then ({ conn := some (), cursor := some () }, true) else (m, false)

/-- `DatabaseManager.execute_query`: connect, execute, commit, return the
cursor value; any `sqlite3.Error` is caught and `None` returned; the
`finally:` block closes the connection on every exit path.  Returns the
Python return value and the final manager state. -/
def execute_query {α : Type} (m : DBManager) (connectOk : Bool)
    (run : Except SqliteError α) : Option α × DBManager :=
  let step := m.connect connectOk
  let res : Option α :=
    if step.2 then
      match run with
      | .ok a => some a
      | .error _ => none
    else none
  (res, step.1.close)

/-- `DatabaseManager.fetch_one`: like `execute_query` but returns
`cursor.fetchone()` (itself `None` when the query has no rows). -/
def fetch_one {β : Type} (m : DBManager) (connectOk : Bool)
    (run : Except SqliteError (Option β)) : Option β × DBManager :=
  let step := m.connect connectOk
  let res : Option β :=
    if step.2 then
      match run with
      | .ok r => r
      | .error _ => none
    else none
  (res, step.1.close)

/-- `DatabaseManager.fetch_all`: like `execute_query` but returns
`cursor.fetchall()` (a list, possibly empty) on success. -/
def fetch_all {β : Type} (m : DBManager) (connectOk : Bool)
    (run : Except SqliteError (List β)) : Option (List β) × DBManager :=
  let step := m.connect connectOk
  let res : Option (List β) :=
    if step.2 then
      match run with
      | .ok r => some r
      | .error _ => none
    else none
  (res, step.1.close)

/-- **C1.** For every statement and parameter tuple (embedded as the outcome
`run` of executing it) and every connection outcome, each of `execute_query`,
`fetch_one` and `fetch_all` catches every storage-layer error and returns the
failure sentinel `none` instead of raising, and on every exit path — success
or error — closes the connection and resets the manager's `conn` and `cursor`
handles to the not-connected state before returning.  The hypothesis states
the manager-state invariant (a `cursor` handle is never live without a
`conn` handle) that holds at every entry to these methods. -/
theorem executor_error_containment_and_close {α β γ : Type}
    (m : DBManager) (cOk : Bool)
    (runQ : Except SqliteError α) (runO : Except SqliteError (Option β))
    (runA : Except SqliteError (List γ))
    (hm : m.conn = none → m.cursor = none) :
    ((execute_query m cOk runQ).2 = ⟨none, none⟩ ∧
     (fetch_one m cOk runO).2 = ⟨none, none⟩ ∧
     (fetch_all m cOk runA).2 = ⟨none, none⟩) ∧
    (∀ e, runQ = .error e → (execute_query m cOk runQ).1 = none) ∧
    (∀ e, runO = .error e → (fetch_one m cOk runO).1 = none) ∧
    (∀ e, runA = .error e → (fetch_all m cOk runA).1 = none) := by
  obtain ⟨conn, cursor⟩ := m
  have hclose : ∀ (x : Bool) (rq : Except SqliteError α),
      (execute_query ⟨conn, cursor⟩ x rq).2 = ⟨none, none⟩ := by
    intro x rq
    cases x with
    | true => simp [execute_query, DBManager.connect, DBManager.close]
    | false =>
      cases conn with
      | some u => simp [execute_query, DBManager.connect, DBManager.close]
      | none =>
        have hc : cursor = none := hm rfl
        subst hc
        simp [execute_query, DBManager.connect, DBManager.close]
  have hcloseO : ∀ (x : Bool) (rq : Except SqliteError (Option β)),
      (fetch_one ⟨conn, cursor⟩ x rq).2 = ⟨none, none⟩ := by
    intro x rq
    cases x with
    | true => simp [fetch_one, DBManager.connect, DBManager.close]
    | false =>
      cases conn with
      | some u => simp [fetch_one, DBManager.connect, DBManager.close]
      | none =>
        have hc : cursor = none := hm rfl
        subst hc
        simp [fetch_one, DBManager.connect, DBManager.close]
  have hcloseA : ∀ (x : Bool) (rq : Except SqliteError (List γ)),
      (fetch_all ⟨conn, cursor⟩ x rq).2 = ⟨none, none⟩ := by
    intro x rq
    cases x with
    | true => simp [fetch_all, DBManager.connect, DBManager.close]
    | false =>
      cases conn with
      | some u => simp [fetch_all, DBManager.connect, DBManager.close]
      | none =>
        have hc : cursor = none := hm rfl
        subst hc
        simp [fetch_all, DBManager.connect, DBManager.close]
  refine ⟨⟨hclose cOk runQ, hcloseO cOk runO, hcloseA cOk runA⟩, ?_, ?_, ?_⟩
  · intro e he
    subst he
    cases cOk <;> simp [execute_query, DBManager.connect]
  · intro e he
    subst he
    cases cOk <;> simp [fetch_one, DBManager.connect]
  · intro e he
    subst he
    cases cOk <;> simp [fetch_all, DBManager.connect]

/-- Witness for C1: a concrete failing statement against the fresh manager
state: the sentinel is returned and the handles end up reset. -/
theorem executor_error_containment_and_close_witness :
    ((⟨none, none⟩ : DBManager).conn = none → (⟨none, none⟩ : DBManager).cursor = none) ∧
    ((execute_query (α := Nat) ⟨none, none⟩ true (.error (.mk "locked"))).2 = ⟨none, none⟩ ∧
     (fetch_one (β := Nat) ⟨none, none⟩ true (.error (.mk "locked"))).2 = ⟨none, none⟩ ∧
     (fetch_all (β := Nat) ⟨none, none⟩ true (.error (.mk "locked"))).2 = ⟨none, none⟩) ∧
    (execute_query (α := Nat) ⟨none, none⟩ true (.error (.mk "locked"))).1 = none := by
  have h := executor_error_containment_and_close (α := Nat) (β := Nat) (γ := Nat)
    ⟨none, none⟩ true (.error (.mk "locked")) (.error (.mk "locked"))
    (.error (.mk "locked")) (fun _ => rfl)
  exact ⟨fun _ => rfl, h.1, h.2.1 (.mk "locked") rfl⟩

/-! ## Schema migrator (`_table_exists`, `_column_exists`, `_try_add_column`,
`init_db` phase 1; `pro.py` lines 70-126)

A schema is the list of tables, each carrying its column-name list as
reported by `PRAGMA table_info`.  The full `ADD COLUMN` definition clause is
abstracted to the column name it declares, which is what `_column_exists`
checks and what determines idempotence. -/

/-- A database schema: table names with their column-name lists. -/
abbrev Schema := List (String × List String)

/-- `DatabaseManager._table_exists`: lookup in `sqlite_master`. -/
def table_exists (s : Schema) (t : String) : Bool :=
  s.any (fun p => p.1 = t)

/-- The column list `PRAGMA table_info(t)` reports. -/
def tableColumns (s : Schema) (t : String) : List String :=
  match s.find? (fun p => p.1 = t) with
  | some p => p.2
  | none => []

/-- `DatabaseManager._column_exists`: `False` when the table is missing,
otherwise membership of the column name in the `PRAGMA table_info` list. -/
def column_exists (s : Schema) (t c : String) : Bool :=
  table_exists s t && (tableColumns s t).contains c

/-- The effect of a successful `ALTER TABLE t ADD COLUMN c ...`. -/
def alterAddColumn (s : Schema) (t c : String) : Schema :=
  s.map (fun p => if p.1 = t then (p.1, p.2 ++ [c]) else p)

/-- The store's possible responses to the guarded `ALTER TABLE` statement. -/
inductive AlterResult where
  | success
  | dupColumnError
  | otherError
  deriving Repr, DecidableEq

/-- `DatabaseManager._try_add_column` with the store's response to the
`ALTER` made explicit: if the table exists and the column is missing, attempt
the `ALTER`; a `duplicate column name` `OperationalError` is caught and
`False` returned (column already present, e.g. after a race or partial prior
run); any other storage error is re-raised (`Except.error`).  Returns whether
a schema change was made, with the resulting schema. -/
def try_add_column_outcome (s : Schema) (t c : String) (res : AlterResult) :
    Except SqliteError (Bool × Schema) :=
  if table_exists s t && !(column_exists s t c) then
    match res with
    | .success => .ok (true, alterAddColumn s t c)
    | .dupColumnError => .ok (false, s)
    | .otherError => .error (.mk "migration error")
  else
    .ok (false, s)

/-- `DatabaseManager._try_add_column` in a single-threaded run, where the
`ALTER` on a column the check just reported missing succeeds. -/
def try_add_column (s : Schema) (t c : String) : Bool × Schema :=
  if table_exists s t && !(column_exists s t c) then (true, alterAddColumn s t c)
  else (false, s)

/-- Phase 1 of `init_db`: the additive column migration over the fixed
triples `tasks.category`, `tasks.created_at`, `quiz_attempts.questions_data`,
returning `made_schema_changes` and the resulting schema. -/
def init_db_phase1 (s : Schema) : Bool × Schema :=
  let r1 := try_add_column s "tasks" "category"
  let r2 := try_add_column r1.2 "tasks" "created_at"
  let r3 := try_add_column r2.2 "quiz_attempts" "questions_data"
  (r1.1 || r2.1 || r3.1, r3.2)

theorem table_exists_alterAddColumn (s : Schema) (t c u : String) :
    table_exists (alterAddColumn s t c) u = table_exists s u := by
  unfold table_exists alterAddColumn
  rw [List.any_map]
  congr 1
  funext q
  by_cases h : q.1 = t <;> simp [Function.comp, h]

theorem find?_alterAddColumn (s : Schema) (t c u : String) :
    (alterAddColumn s t c).find? (fun p => p.1 = u) =
      (s.find? (fun p => p.1 = u)).map
        (fun p => if p.1 = t then (p.1, p.2 ++ [c]) else p) := by
  unfold alterAddColumn
  rw [List.find?_map]
  have hpred : ((fun p : String × List String => decide (p.1 = u)) ∘
      fun p => if p.1 = t then (p.1, p.2 ++ [c]) else p) =
      (fun p : String × List String => decide (p.1 = u)) := by
    funext q
    by_cases h : q.1 = t <;> simp [Function.comp, h]
  rw [hpred]

theorem tableColumns_alterAddColumn (s : Schema) (t c u : String) :
    tableColumns (alterAddColumn s t c) u =
      match s.find? (fun p => p.1 = u) with
      | some p => if p.1 = t then p.2 ++ [c] else p.2
      | none => [] := by
  unfold tableColumns
  rw [find?_alterAddColumn]
  cases s.find? (fun p => p.1 = u) with
  | none => rfl
  | some p => by_cases h : p.1 = t <;> simp [h]

theorem column_exists_alterAddColumn_self (s : Schema) (t c : String)
    (h : table_exists s t = true) :
    column_exists (alterAddColumn s t c) t c = true := by
  unfold column_exists
  rw [table_exists_alterAddColumn, h, Bool.true_and, tableColumns_alterAddColumn]
  obtain ⟨p, hp⟩ : ∃ p, s.find? (fun q => q.1 = t) = some p := by
    apply Option.isSome_iff_exists.mp
    rw [List.find?_isSome]
    unfold table_exists at h
    rw [List.any_eq_true] at h
    obtain ⟨x, hx, hxt⟩ := h
    exact ⟨x, hx, hxt⟩
  rw [hp]
  have hpt : p.1 = t := by simpa using List.find?_some hp
  show (if p.1 = t then p.2 ++ [c] else p.2).contains c = true
  rw [if_pos hpt]
  simp

theorem column_exists_mono_alterAddColumn (s : Schema) (t c u v : String)
    (h : column_exists s t c = true) :
    column_exists (alterAddColumn s u v) t c = true := by
  unfold column_exists at h ⊢
  rw [Bool.and_eq_true] at h
  obtain ⟨hte, hcol⟩ := h
  rw [table_exists_alterAddColumn, hte, Bool.true_and, tableColumns_alterAddColumn]
  unfold tableColumns at hcol
  cases hfind : s.find? (fun p => p.1 = t) with
  | none =>
    rw [hfind] at hcol
    simp at hcol
  | some p =>
    rw [hfind] at hcol
    have hcol' : p.2.contains c = true := hcol
    show (if p.1 = u then p.2 ++ [v] else p.2).contains c = true
    by_cases hpu : p.1 = u
    · rw [if_pos hpu]
      simp at hcol' ⊢
      exact Or.inl hcol'
    · rw [if_neg hpu]
      exact hcol'

theorem table_exists_try_add_column (s : Schema) (t c u : String) :
    table_exists (try_add_column s t c).2 u = table_exists s u := by
  unfold try_add_column
  split
  · exact table_exists_alterAddColumn s t c u
  · rfl

theorem column_exists_try_add_column_self (s : Schema) (t c : String) :
    column_exists (try_add_column s t c).2 t c = table_exists s t := by
  unfold try_add_column
  split
  · next h =>
    rw [Bool.and_eq_true] at h
    show column_exists (alterAddColumn s t c) t c = table_exists s t
    rw [column_exists_alterAddColumn_self s t c h.1, h.1]
  · next h =>
    show column_exists s t c = table_exists s t
    cases hte : table_exists s t with
    | false =>
      unfold column_exists
      rw [hte, Bool.false_and]
    | true =>
      cases hce : column_exists s t c with
      | true => rfl
      | false =>
        exfalso
        apply h
        rw [hte, hce]
        rfl

theorem column_exists_mono_try_add_column (s : Schema) (t c u v : String)
    (h : column_exists s t c = true) :
    column_exists (try_add_column s u v).2 t c = true := by
  unfold try_add_column
  split
  · exact column_exists_mono_alterAddColumn s t c u v h
  · exact h

theorem try_add_column_noop (s : Schema) (t c : String)
    (h : column_exists s t c = table_exists s t) :
    try_add_column s t c = (false, s) := by
  unfold try_add_column
  rw [h]
  cases hte : table_exists s t <;> simp

/-- After a migration step the tracked column is present exactly when its
table is: the second run's guard is then necessarily false. -/
def Settled (s : Schema) (t c : String) : Prop :=
  column_exists s t c = table_exists s t

theorem settled_try_add_column_self (s : Schema) (t c : String) :
    Settled (try_add_column s t c).2 t c := by
  unfold Settled
  rw [column_exists_try_add_column_self, table_exists_try_add_column]

theorem settled_preserved (s : Schema) (t c u v : String) (h : Settled s t c) :
    Settled (try_add_column s u v).2 t c := by
  unfold Settled at h ⊢
  rw [table_exists_try_add_column]
  cases hte : table_exists s t with
  | false =>
    rw [hte] at h
    cases hce : column_exists (try_add_column s u v).2 t c with
    | false => rfl
    | true =>
      exfalso
      have hmem : table_exists (try_add_column s u v).2 t = true := by
        have h2 := hce
        unfold column_exists at h2
        rw [Bool.and_eq_true] at h2
        exact h2.1
      rw [table_exists_try_add_column, hte] at hmem
      cases hmem
  | true =>
    rw [hte] at h
    exact column_exists_mono_try_add_column s t c u v h

theorem try_add_column_settled_noop (s : Schema) (t c : String) (h : Settled s t c) :
    try_add_column s t c = (false, s) :=
  try_add_column_noop s t c h

/-- **C2.** The additive-column migration (`init_db` phase 1 over the fixed
triples `tasks.category`, `tasks.created_at`, `quiz_attempts.questions_data`)
is idempotent: a second run produces the identical schema and performs no
`ALTER` (`made_schema_changes` is `false`, so there is nothing to error or
commit); a run against a schema that already has a column performs no `ALTER`
for it; and a `duplicate column name` error reported by the store is treated
as success (column already present: the call returns normally with `False`
and the schema unchanged) rather than as a failure. -/
theorem init_db_phase1_idempotent (s : Schema) :
    (init_db_phase1 (init_db_phase1 s).2).2 = (init_db_phase1 s).2 ∧
    (init_db_phase1 (init_db_phase1 s).2).1 = false ∧
    (∀ t c, column_exists s t c = true → try_add_column s t c = (false, s)) ∧
    (∀ t c, try_add_column_outcome s t c AlterResult.dupColumnError =
      Except.ok (false, s)) := by
  have hs1 : Settled (init_db_phase1 s).2 "tasks" "category" := by
    unfold init_db_phase1
    exact settled_preserved _ _ _ _ _
      (settled_preserved _ _ _ _ _ (settled_try_add_column_self s "tasks" "category"))
  have hs2 : Settled (init_db_phase1 s).2 "tasks" "created_at" := by
    unfold init_db_phase1
    exact settled_preserved _ _ _ _ _
      (settled_try_add_column_self (try_add_column s "tasks" "category").2 "tasks" "created_at")
  have hs3 : Settled (init_db_phase1 s).2 "quiz_attempts" "questions_data" := by
    unfold init_db_phase1
    exact settled_try_add_column_self
      (try_add_column (try_add_column s "tasks" "category").2 "tasks" "created_at").2
      "quiz_attempts" "questions_data"
  have hrun2 : init_db_phase1 (init_db_phase1 s).2 = (false, (init_db_phase1 s).2) := by
    simp only [init_db_phase1] at hs1 hs2 hs3
    simp only [init_db_phase1, try_add_column_settled_noop _ _ _ hs1,
      try_add_column_settled_noop _ _ _ hs2, try_add_column_settled_noop _ _ _ hs3,
      Bool.or_false, Bool.or_self]
  refine ⟨by rw [hrun2], by rw [hrun2], ?_, ?_⟩
  · intro t c h
    have h' := h
    unfold column_exists at h'
    rw [Bool.and_eq_true] at h'
    exact try_add_column_noop s t c (by rw [h, h'.1])
  · intro t c
    unfold try_add_column_outcome
    split <;> rfl

/-- Witness for C2: the v1.0 schema (a `tasks` table without the later
columns, no `quiz_attempts` table yet): the first run adds the two task
columns, the second run changes nothing, and a column already present is
never re-added. -/
theorem init_db_phase1_idempotent_witness :
    (init_db_phase1
        (init_db_phase1 [("tasks", ["task_id", "user_id", "description"])]).2).2 =
      (init_db_phase1 [("tasks", ["task_id", "user_id", "description"])]).2 ∧
    column_exists [("tasks", ["task_id", "user_id", "description"])] "tasks" "user_id" = true ∧
    try_add_column [("tasks", ["task_id", "user_id", "description"])] "tasks" "user_id" =
      (false, [("tasks", ["task_id", "user_id", "description"])]) := by
  refine ⟨(init_db_phase1_idempotent [("tasks", ["task_id", "user_id", "description"])]).1,
    by decide, ?_⟩
  exact (init_db_phase1_idempotent [("tasks", ["task_id", "user_id", "description"])]).2.2.1
    "tasks" "user_id" (by decide)

/-! ## Relational state and domain repositories (`pro.py` lines 219-374)

The tables the claims touch, with their row types.  `AUTOINCREMENT` ids are
modelled by explicit `next_*` counters; `CURRENT_TIMESTAMP` and the dates the
caller supplies are opaque TEXT values.  The repository methods are embedded
in their error-free execution semantics (the single-statement success path of
the executor); where a statement can fail on a constraint (`UNIQUE`,
`FOREIGN KEY`) the failure is the executor's `none` sentinel and the state is
unchanged, exactly as `execute_query` produces it. -/

/-- A row of `users`. -/
structure UserRow where
  user_id : Nat
  username : String
  password_hash : String
  deriving Repr, DecidableEq

/-- A row of `task_categories`. -/
structure CategoryRow where
  category_id : Nat
  user_id : Nat
  name : String
  deriving Repr, DecidableEq

/-- A row of `tasks` (`completed` is the stored 0/1 integer, `due_date` a
nullable TEXT date). -/
structure TaskRow where
  task_id : Nat
  user_id : Nat
  description : String
  category : String
  due_date : Option String
  completed : Nat
  created_at : String
  deriving Repr, DecidableEq

/-- A row of `quiz_attempts` (`questions_data` is the nullable serialized
question snapshot). -/
structure QuizAttemptRow where
  attempt_id : Nat
  user_id : Nat
  topic : String
  quiz_date : String
  score : Int
  total_questions : Int
  questions_data : Option String
  deriving Repr, DecidableEq

/-- A row of `ai_chat_history`. -/
structure ChatRow where
  message_id : Nat
  user_id : Nat
  role : String
  content : String
  timestamp : String
  deriving Repr, DecidableEq

/-- The stored database state. -/
structure DB where
  users : List UserRow
  task_categories : List CategoryRow
  tasks : List TaskRow
  quiz_attempts : List QuizAttemptRow
  ai_chat_history : List ChatRow
  next_user_id : Nat
  next_category_id : Nat
  next_task_id : Nat
  next_attempt_id : Nat
  next_message_id : Nat
  deriving Repr, DecidableEq

/-- Whether `user_id` references an existing `users` row (the enabled
foreign-key enforcement checks this on every owned-row insert). -/
def userExists (db : DB) (uid : Nat) : Bool :=
  db.users.any (fun r => r.user_id = uid)

/-- `add_task_category`: `INSERT OR IGNORE INTO task_categories` under
`UNIQUE(user_id, name)`.  A duplicate pair is ignored (statement succeeds,
no row); a foreign-key violation makes `execute_query` return the sentinel.
Returns whether the statement succeeded, with the new state. -/
def add_task_category (db : DB) (uid : Nat) (name : String) : Bool × DB :=
  if !userExists db uid then (false, db)
  else if db.task_categories.any (fun c => c.user_id = uid && c.name = name) then
    (true, db)
  else
    (true, { db with
      task_categories := db.task_categories ++ [⟨db.next_category_id, uid, name⟩],
      next_category_id := db.next_category_id + 1 })

/-- The five default categories `add_user` seeds, in seeding order. -/
def default_categories : List String :=
  ["General", "Academic", "Personal", "Project", "Urgent"]

/-- `add_user`: hash the password with `hashlib.sha256(...).hexdigest()`
(embedded as the opaque deterministic digest `sha256_hexdigest`), insert
under `UNIQUE(username)`, and — when the insert succeeded and its
`lastrowid` is truthy (`if res and res.lastrowid:`) — seed the five default
categories for the new user.  Returns the new row id (`none` = the failed
insert's sentinel) and the new state. -/
def add_user (sha256_hexdigest : String → String) (db : DB)
    (username password : String) : Option Nat × DB :=
  if db.users.any (fun r => r.username = username) then (none, db)
  else
    let db1 : DB := { db with
      users := db.users ++ [⟨db.next_user_id, username, sha256_hexdigest password⟩],
      next_user_id := db.next_user_id + 1 }
    if db.next_user_id ≠ 0 then
      (some db.next_user_id,
        default_categories.foldl (fun d n => (add_task_category d db.next_user_id n).2) db1)
    else
      (some db.next_user_id, db1)

/-- `check_user`: re-hash the supplied password and fetch the first
`(user_id, username)` row matching the `(username, password_hash)` pair. -/
def check_user (sha256_hexdigest : String → String) (db : DB)
    (username password : String) : Option (Nat × String) :=
  (db.users.find? (fun r =>
      r.username = username && r.password_hash = sha256_hexdigest password)).map
    (fun r => (r.user_id, r.username))

/-- `SELECT name FROM task_categories WHERE user_id = ? ORDER BY name`:
the rows `get_task_categories` fetches, in ascending TEXT order.  SQLite
leaves the order of duplicates unspecified; `insertionSort` realizes one
such stable order. -/
def categoryNamesQuery (db : DB) (uid : Nat) : List String :=
  List.insertionSort nameLe
    ((db.task_categories.filter (fun c => c.user_id = uid)).map (fun c => c.name))

/-- The post-processing of `get_task_categories` applied to the `fetch_all`
result (`none` is the executor's failure sentinel; a falsy fetch result
yields `cat_list = []`): synthesize `"General"` at the front when absent,
reposition it to the front (`pop` at its first index, `insert(0, ...)`)
when present elsewhere. -/
def get_task_categories_post (fetched : Option (List String)) : List String :=
  let cat_list : List String :=
    match fetched with
    | none => []
    | some l => l
  if "General" ∉ cat_list then
    "General" :: cat_list
  else if cat_list.indexOf "General" ≠ 0 then
    "General" :: cat_list.eraseIdx (cat_list.indexOf "General")
  else
    cat_list

/-- `get_task_categories` on the fetch success path. -/
def get_task_categories (db : DB) (uid : Nat) : List String :=
  get_task_categories_post (some (categoryNamesQuery db uid))

/-- `delete_task_category`: reject `"General"` case-insensitively, otherwise
retarget the user's tasks in the category to `'General'` (`UPDATE tasks`)
and then delete the category row.  Returns the Python result's truthiness
(`False` on the guard) and the new state. -/
def delete_task_category (db : DB) (uid : Nat) (category_name : String) : Bool × DB :=
  if lower category_name = "general" then (false, db)
  else
    let db1 : DB := { db with
      tasks := db.tasks.map (fun t =>
        if t.user_id = uid && t.category = category_name then
          { t with category := "General" }
        else t) }
    (true, { db1 with
      task_categories := db1.task_categories.filter
        (fun c => !(c.user_id = uid && c.name = category_name)) })

/-- A result row of `get_tasks`: `SELECT task_id, description, category,
due_date, completed, created_at`. -/
structure TaskOut where
  task_id : Nat
  description : String
  category : String
  due_date : Option String
  completed : Nat
  created_at : String
  deriving Repr, DecidableEq

/-- The projection `get_tasks` selects. -/
def TaskRow.out (t : TaskRow) : TaskOut :=
  ⟨t.task_id, t.description, t.category, t.due_date, t.completed, t.created_at⟩

/-- The `AND category = ?` clause: only added when `category_filter` is
truthy and not `"All Categories"`. -/
def catFilterOk (category_filter : Option String) (t : TaskRow) : Bool :=
  match category_filter with
  | none => true
  | some c => if c ≠ "" && c ≠ "All Categories" then t.category = c else true

/-- The due-date clause for the three recognized `due_filter` modes; any
other value adds no clause.  SQL comparisons against a NULL `due_date` are
not satisfied. -/
def dueFilterOk (due_filter : Option String) (today next_week : String)
    (t : TaskRow) : Bool :=
  match due_filter with
  | some "today" => t.due_date = some today
  | some "upcoming" =>
    match t.due_date with
    | some d => strLt today d && strLe d next_week
    | none => false
  | some "overdue" =>
    (match t.due_date with
     | some d => strLt d today
     | none => false) && t.completed = 0
  | _ => true

/-- `CASE WHEN due_date IS NULL OR due_date = '' THEN 1 ELSE 0 END`. -/
def dueMissing (d : Option String) : Nat :=
  match d with
  | none => 1
  | some s => if s = "" then 1 else 0

/-- `due_date ASC` on the nullable column (SQLite sorts NULL first in ASC). -/
def dueAsc (a b : Option String) : Bool :=
  match a, b with
  | none, _ => true
  | some _, none => false
  | some x, some y => strLe x y

/-- The `ORDER BY` of `get_tasks`: null/empty due dates last, then due date
ascending, ties by creation time descending. -/
def taskOrd (a b : TaskOut) : Prop :=
  (if dueMissing a.due_date ≠ dueMissing b.due_date then
    decide (dueMissing a.due_date < dueMissing b.due_date)
  else if a.due_date ≠ b.due_date then
    dueAsc a.due_date b.due_date
  else
    strLe b.created_at a.created_at) = true

instance : DecidableRel taskOrd := fun a b => by unfold taskOrd; infer_instance

/-- `get_tasks`: compose the `WHERE` clauses, the `ORDER BY`, and the
optional `LIMIT` (only appended when `limit` is truthy: `if limit:`). -/
def get_tasks (db : DB) (uid : Nat) (show_completed : Bool)
    (category_filter : Option String) (due_filter : Option String)
    (limit : Option Nat) (today next_week : String) : List TaskOut :=
  let rows := (db.tasks.filter (fun t =>
    t.user_id = uid
    && (show_completed || t.completed = 0)
    && catFilterOk category_filter t
    && dueFilterOk due_filter today next_week t)).map TaskRow.out
  let sorted := List.insertionSort taskOrd rows
  match limit with
  | some n => if n ≠ 0 then sorted.take n else sorted
  | none => sorted

/-- `add_quiz_attempt`: insert the attempt row (the serialized snapshot is
stored verbatim); a foreign-key violation yields the sentinel.  Returns the
new row id and the new state. -/
def add_quiz_attempt (db : DB) (uid : Nat) (topic quiz_date : String)
    (score total_questions : Int) (questions_data_json : Option String) :
    Option Nat × DB :=
  if !userExists db uid then (none, db)
  else
    (some db.next_attempt_id, { db with
      quiz_attempts := db.quiz_attempts ++
        [⟨db.next_attempt_id, uid, topic, quiz_date, score, total_questions,
          questions_data_json⟩],
      next_attempt_id := db.next_attempt_id + 1 })

/-- `get_quiz_attempt_details`: `SELECT topic, questions_data FROM
quiz_attempts WHERE attempt_id = ?` via `fetch_one`. -/
def get_quiz_attempt_details (db : DB) (attempt_id : Nat) :
    Option (String × Option String) :=
  (db.quiz_attempts.find? (fun r => r.attempt_id = attempt_id)).map
    (fun r => (r.topic, r.questions_data))

/-- A result row of `get_chat_history`: `SELECT role, content, timestamp`. -/
structure ChatOut where
  role : String
  content : String
  timestamp : String
  deriving Repr, DecidableEq

/-- The projection `get_chat_history` selects. -/
def ChatRow.out (m : ChatRow) : ChatOut :=
  ⟨m.role, m.content, m.timestamp⟩

/-- `ORDER BY timestamp DESC` on chat rows. -/
def chatDesc (a b : ChatOut) : Prop := strLe b.timestamp a.timestamp = true

instance : DecidableRel chatDesc := fun a b => by unfold chatDesc; infer_instance

instance : IsTrans ChatOut chatDesc :=
  ⟨fun a b c hab hbc => strLe_trans c.timestamp b.timestamp a.timestamp hbc hab⟩

instance : IsTotal ChatOut chatDesc :=
  ⟨fun a b => (strLe_total b.timestamp a.timestamp).elim Or.inl Or.inr⟩

/-- The rows `SELECT role, content, timestamp FROM ai_chat_history WHERE
user_id = ? ORDER BY timestamp DESC` produces, before the `LIMIT`. -/
def chatDescQuery (db : DB) (uid : Nat) : List ChatOut :=
  List.insertionSort chatDesc
    ((db.ai_chat_history.filter (fun m => m.user_id = uid)).map ChatRow.out)

/-- The post-processing of `get_chat_history`:
`list(reversed(history)) if history else []`, with `none` the executor's
failure sentinel. -/
def get_chat_history_post (fetched : Option (List ChatOut)) : List ChatOut :=
  match fetched with
  | none => []
  | some l => if l.isEmpty then [] else l.reverse

/-- `get_chat_history` on the fetch success path: the `LIMIT ?` slice of the
descending query, reversed to chronological order. -/
def get_chat_history (db : DB) (uid : Nat) (limit : Nat) : List ChatOut :=
  get_chat_history_post (some ((chatDescQuery db uid).take limit))

/-! ## Category listing: `"General"` always first -/

theorem get_task_categories_post_some (l : List String) :
    get_task_categories_post (some l) =
      if "General" ∉ l then "General" :: l
      else if l.indexOf "General" ≠ 0 then
        "General" :: l.eraseIdx (l.indexOf "General")
      else l := rfl

theorem eraseIdx_indexOf (l : List String) (a : String) :
    l.eraseIdx (l.indexOf a) = l.erase a := by
  induction l with
  | nil => rfl
  | cons b t ih =>
    by_cases h : b = a
    · subst h
      simp [List.indexOf_cons, List.erase_cons]
    · simp [List.indexOf_cons, List.erase_cons, h, ih]

theorem head?_eq_of_indexOf_zero (l : List String) (h0 : l.indexOf "General" = 0)
    (hmem : "General" ∈ l) : l.head? = some "General" := by
  cases l with
  | nil => cases hmem
  | cons b t =>
    rw [List.indexOf_cons] at h0
    by_cases h : b = "General"
    · rw [h]
      rfl
    · rw [show (b == "General") = false by simp [h]] at h0
      simp at h0

theorem mem_get_task_categories_post (l : List String) (x : String) :
    x ∈ get_task_categories_post (some l) ↔ x = "General" ∨ x ∈ l := by
  rw [get_task_categories_post_some]
  by_cases hG : "General" ∈ l
  · rw [if_neg (fun hc => hc hG)]
    by_cases h0 : l.indexOf "General" = 0
    · rw [if_neg (fun hc => hc h0)]
      constructor
      · intro hx
        exact Or.inr hx
      · rintro (rfl | hx)
        · exact hG
        · exact hx
    · rw [if_pos h0, eraseIdx_indexOf]
      constructor
      · intro hx
        rcases List.mem_cons.mp hx with rfl | hx
        · exact Or.inl rfl
        · exact Or.inr (List.erase_subset _ _ hx)
      · rintro (rfl | hx)
        · exact List.mem_cons_self _ _
        · by_cases hxg : x = "General"
          · subst hxg
            exact List.mem_cons_self _ _
          · exact List.mem_cons_of_mem _ ((List.mem_erase_of_ne hxg).mpr hx)
  · rw [if_pos hG]
    constructor
    · intro hx
      rcases List.mem_cons.mp hx with rfl | hx
      · exact Or.inl rfl
      · exact Or.inr hx
    · rintro (rfl | hx)
      · exact List.mem_cons_self _ _
      · exact List.mem_cons_of_mem _ hx

theorem head?_get_task_categories_post (l : List String) :
    (get_task_categories_post (some l)).head? = some "General" := by
  rw [get_task_categories_post_some]
  by_cases hG : "General" ∈ l
  · rw [if_neg (fun hc => hc hG)]
    by_cases h0 : l.indexOf "General" = 0
    · rw [if_neg (fun hc => hc h0)]
      exact head?_eq_of_indexOf_zero l h0 hG
    · rw [if_pos h0]
      rfl
  · rw [if_pos hG]
    rfl

/-- **C5.** For every user, `get_task_categories` returns a list whose first
element is `"General"`: the stored categories are fetched in alphabetical
order, the result contains exactly the fetched names plus `"General"`
(repositioned to the front when it appears in the fetch), and `"General"` is
synthesized at the front when the user has no stored `"General"` row
(including when the user has no categories at all). -/
theorem get_task_categories_general_first (db : DB) (uid : Nat) :
    (get_task_categories db uid).head? = some "General" ∧
    List.Sorted nameLe (categoryNamesQuery db uid) ∧
    (∀ x, x ∈ get_task_categories db uid ↔
      (x = "General" ∨ x ∈ categoryNamesQuery db uid)) ∧
    ("General" ∉ categoryNamesQuery db uid →
      get_task_categories db uid = "General" :: categoryNamesQuery db uid) := by
  refine ⟨head?_get_task_categories_post _,
    List.sorted_insertionSort nameLe _,
    fun x => mem_get_task_categories_post _ x, ?_⟩
  intro h
  unfold get_task_categories
  rw [get_task_categories_post_some, if_pos h]

/-- Witness for C5: a user whose only stored category is `"Urgent"` (no
stored `"General"` row): the synthesized `"General"` leads the result. -/
theorem get_task_categories_general_first_witness :
    (get_task_categories
        ⟨[⟨1, "alice", "d1"⟩], [⟨1, 1, "Urgent"⟩], [], [], [], 2, 2, 1, 1, 1⟩
        1).head? = some "General" ∧
    get_task_categories
        ⟨[⟨1, "alice", "d1"⟩], [⟨1, 1, "Urgent"⟩], [], [], [], 2, 2, 1, 1, 1⟩ 1 =
      "General" :: categoryNamesQuery
        ⟨[⟨1, "alice", "d1"⟩], [⟨1, 1, "Urgent"⟩], [], [], [], 2, 2, 1, 1, 1⟩ 1 := by
  refine ⟨(get_task_categories_general_first _ 1).1, ?_⟩
  exact (get_task_categories_general_first
    ⟨[⟨1, "alice", "d1"⟩], [⟨1, 1, "Urgent"⟩], [], [], [], 2, 2, 1, 1, 1⟩ 1).2.2.2
    (by decide)

/-- **C10.** Neither listing repository ever surfaces the executor's failure
sentinel: on a failed `fetch_all` (`none`), `get_task_categories` still
returns a plain list headed by the synthesized `"General"` — identical to the
result for a user whose only category is the default — and `get_chat_history`
returns the empty list. -/
theorem listing_shields_fetch_failure :
    get_task_categories_post none = ["General"] ∧
    get_task_categories_post none = get_task_categories_post (some ["General"]) ∧
    get_chat_history_post none = ([] : List ChatOut) ∧
    get_chat_history_post (some ([] : List ChatOut)) = [] := by
  refine ⟨by decide, by decide, rfl, rfl⟩

/-! ## Category deletion -/

/-- **C3.** `delete_task_category` rejects `"General"` case-insensitively
(falsy result, state unchanged); otherwise it returns a truthy result after
first retargeting every task of the user in the deleted category to
`"General"` (all other tasks kept as they are) and then deleting the
category row, so that afterwards no task of the user retains the deleted
category and its name no longer appears in `get_task_categories`. -/
theorem delete_task_category_spec (db : DB) (uid : Nat) (name : String) :
    (lower name = "general" → delete_task_category db uid name = (false, db)) ∧
    (lower name ≠ "general" →
      ((delete_task_category db uid name).1 = true ∧
       (∀ t ∈ (delete_task_category db uid name).2.tasks,
         t.user_id = uid → t.category ≠ name) ∧
       (∀ t ∈ db.tasks, t.user_id = uid → t.category = name →
         { t with category := "General" } ∈ (delete_task_category db uid name).2.tasks) ∧
       (∀ t ∈ db.tasks, ¬(t.user_id = uid ∧ t.category = name) →
         t ∈ (delete_task_category db uid name).2.tasks) ∧
       name ∉ get_task_categories (delete_task_category db uid name).2 uid)) := by
  constructor
  · intro h
    unfold delete_task_category
    rw [if_pos h]
  · intro h
    have hname : name ≠ "General" := by
      intro hc
      apply h
      rw [hc]
      decide
    unfold delete_task_category
    rw [if_neg h]
    refine ⟨rfl, ?_, ?_, ?_, ?_⟩
    · intro t ht huid
      simp only [List.mem_map] at ht
      obtain ⟨t0, _, rfl⟩ := ht
      by_cases hc : t0.user_id = uid && t0.category = name
      · rw [if_pos hc]
        intro hcat
        exact hname hcat.symm
      · rw [if_neg hc]
        rw [if_neg hc] at huid
        intro hcat
        apply hc
        simp [huid, hcat]
    · intro t ht huid hcat
      simp only [List.mem_map]
      refine ⟨t, ht, ?_⟩
      rw [if_pos (by simp [huid, hcat])]
    · intro t ht hnc
      simp only [List.mem_map]
      refine ⟨t, ht, ?_⟩
      rw [if_neg (by simpa using hnc)]
    · intro hmem
      unfold get_task_categories at hmem
      rw [mem_get_task_categories_post] at hmem
      rcases hmem with hG | hmem
      · exact hname hG
      · unfold categoryNamesQuery at hmem
        rw [List.mem_insertionSort] at hmem
        simp only [List.mem_map, List.mem_filter] at hmem
        obtain ⟨c, ⟨hcmem, hcuid⟩, hcname⟩ := hmem
        have hko := hcmem.2
        simp only [Bool.not_eq_true', Bool.and_eq_false_iff] at hko
        rcases hko with hko | hko
        · simp only [decide_eq_true_eq] at hcuid
          simp [hcuid] at hko
        · simp [hcname] at hko

/-- Witness for C3: deleting `"General"` is rejected with the state intact;
deleting `"Academic"` succeeds, retargets the task that was in it to
`"General"`, and removes `"Academic"` from the listing. -/
theorem delete_task_category_spec_witness :
    delete_task_category
        ⟨[⟨1, "alice", "d1"⟩], [⟨1, 1, "General"⟩, ⟨2, 1, "Academic"⟩],
          [⟨1, 1, "Read Ch.3", "Academic", some "2024-01-10", 0, "c1"⟩],
          [], [], 2, 3, 2, 1, 1⟩ 1 "General" =
      (false,
        ⟨[⟨1, "alice", "d1"⟩], [⟨1, 1, "General"⟩, ⟨2, 1, "Academic"⟩],
          [⟨1, 1, "Read Ch.3", "Academic", some "2024-01-10", 0, "c1"⟩],
          [], [], 2, 3, 2, 1, 1⟩) ∧
    (delete_task_category
        ⟨[⟨1, "alice", "d1"⟩], [⟨1, 1, "General"⟩, ⟨2, 1, "Academic"⟩],
          [⟨1, 1, "Read Ch.3", "Academic", some "2024-01-10", 0, "c1"⟩],
          [], [], 2, 3, 2, 1, 1⟩ 1 "Academic").1 = true ∧
    (⟨1, 1, "Read Ch.3", "General", some "2024-01-10", 0, "c1"⟩ : TaskRow) ∈
      (delete_task_category
        ⟨[⟨1, "alice", "d1"⟩], [⟨1, 1, "General"⟩, ⟨2, 1, "Academic"⟩],
          [⟨1, 1, "Read Ch.3", "Academic", some "2024-01-10", 0, "c1"⟩],
          [], [], 2, 3, 2, 1, 1⟩ 1 "Academic").2.tasks ∧
    "Academic" ∉ get_task_categories
      (delete_task_category
        ⟨[⟨1, "alice", "d1"⟩], [⟨1, 1, "General"⟩, ⟨2, 1, "Academic"⟩],
          [⟨1, 1, "Read Ch.3", "Academic", some "2024-01-10", 0, "c1"⟩],
          [], [], 2, 3, 2, 1, 1⟩ 1 "Academic").2 1 := by
  have h := delete_task_category_spec
    ⟨[⟨1, "alice", "d1"⟩], [⟨1, 1, "General"⟩, ⟨2, 1, "Academic"⟩],
      [⟨1, 1, "Read Ch.3", "Academic", some "2024-01-10", 0, "c1"⟩],
      [], [], 2, 3, 2, 1, 1⟩ 1 "Academic"
  have hg := delete_task_category_spec
    ⟨[⟨1, "alice", "d1"⟩], [⟨1, 1, "General"⟩, ⟨2, 1, "Academic"⟩],
      [⟨1, 1, "Read Ch.3", "Academic", some "2024-01-10", 0, "c1"⟩],
      [], [], 2, 3, 2, 1, 1⟩ 1 "General"
  refine ⟨hg.1 (by decide), (h.2 (by decide)).1, ?_, (h.2 (by decide)).2.2.2.2⟩
  exact (h.2 (by decide)).2.2.1
    ⟨1, 1, "Read Ch.3", "Academic", some "2024-01-10", 0, "c1"⟩
    (by decide) (by decide) (by decide)

/-! ## Task listing: the `"overdue"` filter -/

theorem dueFilterOk_overdue (today next_week : String) (t : TaskRow) :
    dueFilterOk (some "overdue") today next_week t =
      ((match t.due_date with
        | some d => strLt d today
        | none => false) && decide (t.completed = 0)) := rfl

/-- **C4.** For every user and stored task set, `get_tasks` with
`due_filter = "overdue"` returns only rows with `completed = 0` and a
non-null due date strictly before the current date (so never a completed
task, and never a task whose due date is null, today, or later), regardless
of `show_completed`, the category filter, and the limit. -/
theorem get_tasks_overdue_spec (db : DB) (uid : Nat) (show_completed : Bool)
    (category_filter : Option String) (limit : Option Nat) (today next_week : String) :
    ∀ r ∈ get_tasks db uid show_completed category_filter (some "overdue") limit
        today next_week,
      r.completed = 0 ∧ ∃ d, r.due_date = some d ∧ strLt d today = true := by
  intro r hr
  have hr' : r ∈ List.insertionSort taskOrd ((db.tasks.filter (fun t =>
      t.user_id = uid
      && (show_completed || t.completed = 0)
      && catFilterOk category_filter t
      && dueFilterOk (some "overdue") today next_week t)).map TaskRow.out) := by
    rcases limit with _ | n
    · exact hr
    · simp only [get_tasks] at hr
      by_cases hn : n ≠ 0
      · rw [if_pos hn] at hr
        exact List.take_subset _ _ hr
      · rw [if_neg hn] at hr
        exact hr
  rw [List.mem_insertionSort] at hr'
  simp only [List.mem_map, List.mem_filter] at hr'
  obtain ⟨t, ⟨_, hpred⟩, rfl⟩ := hr'
  simp only [Bool.and_eq_true] at hpred
  have hdue := hpred.2
  rw [dueFilterOk_overdue, Bool.and_eq_true] at hdue
  cases hd : t.due_date with
  | none =>
    rw [hd] at hdue
    cases hdue.1
  | some d =>
    rw [hd] at hdue
    exact ⟨by simpa using hdue.2, d, hd, hdue.1⟩

/-- Witness for C4: a stored task due 2024-01-10 against current date
2024-06-01 is returned by the overdue listing and satisfies the property. -/
theorem get_tasks_overdue_spec_witness :
    (⟨1, "Read Ch.3", "Academic", some "2024-01-10", 0, "2024-01-01 10:00:00"⟩ : TaskOut) ∈
      get_tasks
        ⟨[⟨1, "alice", "d1"⟩], [⟨1, 1, "General"⟩],
          [⟨1, 1, "Read Ch.3", "Academic", some "2024-01-10", 0, "2024-01-01 10:00:00"⟩],
          [], [], 2, 2, 2, 1, 1⟩
        1 true none (some "overdue") none "2024-06-01" "2024-06-08" ∧
    ((⟨1, "Read Ch.3", "Academic", some "2024-01-10", 0, "2024-01-01 10:00:00"⟩ :
        TaskOut).completed = 0 ∧
      ∃ d, (⟨1, "Read Ch.3", "Academic", some "2024-01-10", 0,
        "2024-01-01 10:00:00"⟩ : TaskOut).due_date = some d ∧
        strLt d "2024-06-01" = true) := by
  refine ⟨by decide, ?_⟩
  exact get_tasks_overdue_spec
    ⟨[⟨1, "alice", "d1"⟩], [⟨1, 1, "General"⟩],
      [⟨1, 1, "Read Ch.3", "Academic", some "2024-01-10", 0, "2024-01-01 10:00:00"⟩],
      [], [], 2, 2, 2, 1, 1⟩
    1 true none none "2024-06-01" "2024-06-08" _ (by decide)

/-! ## Chat history: bounded chronological slice -/

/-- **C9.** For every user and limit `N`, `get_chat_history` returns at most
`N` rows, in non-decreasing timestamp order (chronological, oldest first);
each returned row is a stored message of that user, and every message in the
part of the descending-ordered query beyond the first `N` (the older
messages cut off by the `LIMIT`) has a timestamp at most that of every
returned row — the result is the `N` most recent messages, reversed from the
descending fetch. -/
theorem get_chat_history_spec (db : DB) (uid : Nat) (N : Nat) :
    (get_chat_history db uid N).length ≤ N ∧
    List.Pairwise (fun a b : ChatOut => strLe a.timestamp b.timestamp = true)
      (get_chat_history db uid N) ∧
    (∀ x ∈ get_chat_history db uid N,
      ∃ m ∈ db.ai_chat_history, m.user_id = uid ∧ m.out = x) ∧
    (∀ x ∈ get_chat_history db uid N, ∀ y ∈ (chatDescQuery db uid).drop N,
      strLe y.timestamp x.timestamp = true) := by
  have hpost : ∀ l : List ChatOut,
      get_chat_history_post (some l) = if l.isEmpty = true then [] else l.reverse :=
    fun _ => rfl
  have hrev : get_chat_history db uid N = ((chatDescQuery db uid).take N).reverse := by
    unfold get_chat_history
    rw [hpost]
    cases he : ((chatDescQuery db uid).take N).isEmpty with
    | true =>
      rw [List.isEmpty_iff.mp he]
      simp
    | false => simp
  have hpairD : List.Pairwise chatDesc (chatDescQuery db uid) :=
    List.sorted_insertionSort chatDesc _
  have hpairT : List.Pairwise chatDesc ((chatDescQuery db uid).take N) :=
    List.Pairwise.sublist (List.take_sublist N _) hpairD
  refine ⟨?_, ?_, ?_, ?_⟩
  · rw [hrev, List.length_reverse, List.length_take]
    exact min_le_left _ _
  · rw [hrev]
    exact List.pairwise_reverse.mpr hpairT
  · intro x hx
    rw [hrev, List.mem_reverse] at hx
    have hx' : x ∈ chatDescQuery db uid := List.take_subset _ _ hx
    unfold chatDescQuery at hx'
    rw [List.mem_insertionSort] at hx'
    simp only [List.mem_map, List.mem_filter] at hx'
    obtain ⟨m, ⟨hm, hmu⟩, hout⟩ := hx'
    exact ⟨m, hm, by simpa using hmu, hout⟩
  · intro x hx y hy
    rw [hrev, List.mem_reverse] at hx
    have hsplit := hpairD
    rw [← List.take_append_drop N (chatDescQuery db uid), List.pairwise_append] at hsplit
    exact hsplit.2.2 x hx y hy

/-- Witness for C9: two stored messages, limit 1: only the newer message is
returned, and the older (dropped) one has an earlier timestamp. -/
theorem get_chat_history_spec_witness :
    (get_chat_history
        ⟨[⟨1, "alice", "d1"⟩], [], [], [],
          [⟨1, 1, "user", "hi", "2024-01-01 10:00:00"⟩,
           ⟨2, 1, "model", "hello", "2024-01-01 10:00:05"⟩],
          2, 1, 1, 1, 3⟩
        1 1).length ≤ 1 ∧
    (∀ x ∈ get_chat_history
        ⟨[⟨1, "alice", "d1"⟩], [], [], [],
          [⟨1, 1, "user", "hi", "2024-01-01 10:00:00"⟩,
           ⟨2, 1, "model", "hello", "2024-01-01 10:00:05"⟩],
          2, 1, 1, 1, 3⟩
        1 1, ∀ y ∈ (chatDescQuery
        ⟨[⟨1, "alice", "d1"⟩], [], [], [],
          [⟨1, 1, "user", "hi", "2024-01-01 10:00:00"⟩,
           ⟨2, 1, "model", "hello", "2024-01-01 10:00:05"⟩],
          2, 1, 1, 1, 3⟩ 1).drop 1,
      strLe y.timestamp x.timestamp = true) := by
  refine ⟨?_, ?_⟩
  · exact (get_chat_history_spec _ 1 1).1
  · exact (get_chat_history_spec
      ⟨[⟨1, "alice", "d1"⟩], [], [], [],
        [⟨1, 1, "user", "hi", "2024-01-01 10:00:00"⟩,
         ⟨2, 1, "model", "hello", "2024-01-01 10:00:05"⟩],
        2, 1, 1, 1, 3⟩ 1 1).2.2.2

/-! ## User creation, default-category seeding, authentication -/

theorem add_task_category_users (d : DB) (uid : Nat) (n : String) :
    (add_task_category d uid n).2.users = d.users := by
  unfold add_task_category
  split
  · rfl
  · split
    · rfl
    · rfl

theorem foldl_add_task_category_users (names : List String) (d : DB) (uid : Nat) :
    (names.foldl (fun d n => (add_task_category d uid n).2) d).users = d.users := by
  induction names generalizing d with
  | nil => rfl
  | cons n ns ih =>
    rw [List.foldl_cons, ih, add_task_category_users]

theorem add_task_category_step (d : DB) (uid : Nat) (n : String)
    (hu : userExists d uid = true)
    (hdup : d.task_categories.any (fun c => c.user_id = uid && c.name = n) = false) :
    (add_task_category d uid n).2 = { d with
      task_categories := d.task_categories ++ [⟨d.next_category_id, uid, n⟩],
      next_category_id := d.next_category_id + 1 } := by
  simp [add_task_category, hu, hdup]

theorem seed_categories_filter_map (names : List String) :
    ∀ (d : DB) (uid : Nat), userExists d uid = true → names.Nodup →
    (∀ n ∈ names,
      d.task_categories.any (fun c => c.user_id = uid && c.name = n) = false) →
    ((names.foldl (fun d n => (add_task_category d uid n).2) d).task_categories.filter
        (fun c => c.user_id = uid)).map (fun c => c.name) =
      ((d.task_categories.filter (fun c => c.user_id = uid)).map (fun c => c.name))
        ++ names := by
  induction names with
  | nil =>
    intro d uid _ _ _
    simp
  | cons n ns ih =>
    intro d uid hu hnd hdup
    rw [List.foldl_cons, add_task_category_step d uid n hu (hdup n (List.mem_cons_self n ns))]
    have hu' : userExists ({ d with
        task_categories := d.task_categories ++ [⟨d.next_category_id, uid, n⟩],
        next_category_id := d.next_category_id + 1 } : DB) uid = true := hu
    have hnd' : ns.Nodup := (List.nodup_cons.mp hnd).2
    have hnmem : n ∉ ns := (List.nodup_cons.mp hnd).1
    have hdup' : ∀ m ∈ ns,
        (({ d with
          task_categories := d.task_categories ++ [⟨d.next_category_id, uid, n⟩],
          next_category_id := d.next_category_id + 1 } : DB)).task_categories.any
          (fun c => c.user_id = uid && c.name = m) = false := by
      intro m hm
      show (d.task_categories ++ [(⟨d.next_category_id, uid, n⟩ : CategoryRow)]).any
        (fun c : CategoryRow => c.user_id = uid && c.name = m) = false
      rw [List.any_append, hdup m (List.mem_cons_of_mem n hm)]
      have hne : n ≠ m := fun hc => hnmem (hc ▸ hm)
      simp [hne]
    rw [ih _ uid hu' hnd' hdup']
    show ((d.task_categories ++ [(⟨d.next_category_id, uid, n⟩ : CategoryRow)]).filter
        (fun c : CategoryRow => c.user_id = uid)).map
        (fun c : CategoryRow => c.name) ++ ns = _
    rw [List.filter_append, List.map_append]
    simp

theorem add_user_users (sha256_hexdigest : String → String) (db : DB) (u p : String)
    (hfreshB : db.users.any (fun r => r.username = u) = false) :
    (add_user sha256_hexdigest db u p).2.users =
      db.users ++ [⟨db.next_user_id, u, sha256_hexdigest p⟩] := by
  unfold add_user
  rw [hfreshB]
  simp only [Bool.false_eq_true, if_false]
  by_cases hz : db.next_user_id ≠ 0
  · rw [if_pos hz]
    exact foldl_add_task_category_users _ _ _
  · rw [if_neg hz]

/-- **C6.** A successful `add_user` stores the deterministic sha-256 digest
of the password (never the password itself — whenever the digest differs
from the password, so does the stored value), returns the fresh row id, and
seeds exactly the five default categories
`{General, Academic, Personal, Project, Urgent}` for the new user, and no
others.  Hypotheses: the username is fresh (otherwise the `UNIQUE` insert
fails), the allocated rowid is nonzero (always true of `AUTOINCREMENT`), and
no category row references the yet-unallocated user id. -/
theorem add_user_spec (sha256_hexdigest : String → String) (db : DB) (u p : String)
    (hfresh : ∀ r ∈ db.users, r.username ≠ u)
    (hid : db.next_user_id ≠ 0)
    (hnocat : ∀ c ∈ db.task_categories, c.user_id ≠ db.next_user_id) :
    (add_user sha256_hexdigest db u p).1 = some db.next_user_id ∧
    (∀ r ∈ (add_user sha256_hexdigest db u p).2.users,
      r.username = u → r.password_hash = sha256_hexdigest p) ∧
    (sha256_hexdigest p ≠ p →
      ∀ r ∈ (add_user sha256_hexdigest db u p).2.users,
        r.username = u → r.password_hash ≠ p) ∧
    (((add_user sha256_hexdigest db u p).2.task_categories.filter
        (fun c => c.user_id = db.next_user_id)).map (fun c => c.name)) =
      default_categories := by
  have hfreshB : db.users.any (fun r => r.username = u) = false :=
    List.any_eq_false.mpr (fun r hr => by simp [hfresh r hr])
  have hres : (add_user sha256_hexdigest db u p).1 = some db.next_user_id := by
    unfold add_user
    rw [hfreshB]
    simp only [Bool.false_eq_true, if_false]
    by_cases hz : db.next_user_id ≠ 0
    · rw [if_pos hz]
    · rw [if_neg hz]
  have husers := add_user_users sha256_hexdigest db u p hfreshB
  have hstore : ∀ r ∈ (add_user sha256_hexdigest db u p).2.users,
      r.username = u → r.password_hash = sha256_hexdigest p := by
    rw [husers]
    intro r hr hru
    rcases List.mem_append.mp hr with hr | hr
    · exact absurd hru (hfresh r hr)
    · rw [List.mem_singleton.mp hr]
  refine ⟨hres, hstore, fun hne r hr hru => by rw [hstore r hr hru]; exact hne, ?_⟩
  have hcats : (add_user sha256_hexdigest db u p).2 =
      default_categories.foldl
        (fun d n => (add_task_category d db.next_user_id n).2)
        ({ db with
          users := db.users ++ [⟨db.next_user_id, u, sha256_hexdigest p⟩],
          next_user_id := db.next_user_id + 1 } : DB) := by
    unfold add_user
    rw [hfreshB]
    simp only [Bool.false_eq_true, if_false]
    rw [if_pos hid]
  rw [hcats]
  have hu1 : userExists ({ db with
      users := db.users ++ [⟨db.next_user_id, u, sha256_hexdigest p⟩],
      next_user_id := db.next_user_id + 1 } : DB) db.next_user_id = true := by
    show (db.users ++ [(⟨db.next_user_id, u, sha256_hexdigest p⟩ : UserRow)]).any
      (fun r : UserRow => r.user_id = db.next_user_id) = true
    rw [List.any_append]
    simp
  have hdup1 : ∀ n ∈ default_categories,
      (({ db with
        users := db.users ++ [⟨db.next_user_id, u, sha256_hexdigest p⟩],
        next_user_id := db.next_user_id + 1 } : DB)).task_categories.any
        (fun c => c.user_id = db.next_user_id && c.name = n) = false := by
    intro n _
    exact List.any_eq_false.mpr (fun c hc => by simp [hnocat c hc])
  rw [seed_categories_filter_map default_categories _ db.next_user_id hu1
    (by decide) hdup1]
  have hnil : ({ db with
      users := db.users ++ [⟨db.next_user_id, u, sha256_hexdigest p⟩],
      next_user_id := db.next_user_id + 1 } : DB).task_categories.filter
      (fun c => c.user_id = db.next_user_id) = [] :=
    List.filter_eq_nil_iff.mpr (fun c hc => by simp [hnocat c hc])
  rw [hnil]
  rfl

/-- Witness for C6: registering `"bob"` with a concrete digest function
against a one-user database seeds exactly the five default categories. -/
theorem add_user_spec_witness :
    (((add_user (fun s => String.append "sha256:" s)
        ⟨[⟨1, "alice", "sha256:pw"⟩], [⟨1, 1, "General"⟩], [], [], [], 2, 2, 1, 1, 1⟩
        "bob" "secret1").2.task_categories.filter
        (fun c => c.user_id = 2)).map (fun c => c.name)) = default_categories := by
  have h := add_user_spec (fun s => String.append "sha256:" s)
    ⟨[⟨1, "alice", "sha256:pw"⟩], [⟨1, 1, "General"⟩], [], [], [], 2, 2, 1, 1, 1⟩
    "bob" "secret1" (by decide) (by decide) (by decide)
  exact h.2.2.2

/-- **C7.** After a successful `add_user u p`, `check_user u p` returns the
new user's identity `(user_id, username)`, and `check_user u p2` returns the
absence sentinel for every `p2` whose digest differs from `p`'s:
authentication re-hashes the supplied password with the same digest used at
registration and matches the stored pair. -/
theorem check_user_after_add_user (sha256_hexdigest : String → String)
    (db : DB) (u p : String)
    (hfresh : ∀ r ∈ db.users, r.username ≠ u) :
    check_user sha256_hexdigest (add_user sha256_hexdigest db u p).2 u p =
      some (db.next_user_id, u) ∧
    (∀ p2, sha256_hexdigest p2 ≠ sha256_hexdigest p →
      check_user sha256_hexdigest (add_user sha256_hexdigest db u p).2 u p2 = none) := by
  have hfreshB : db.users.any (fun r => r.username = u) = false :=
    List.any_eq_false.mpr (fun r hr => by simp [hfresh r hr])
  have husers := add_user_users sha256_hexdigest db u p hfreshB
  constructor
  · unfold check_user
    rw [husers, List.find?_append]
    have hleft : db.users.find?
        (fun r => r.username = u && r.password_hash = sha256_hexdigest p) = none :=
      List.find?_eq_none.mpr (fun r hr => by simp [hfresh r hr])
    rw [hleft]
    simp [List.find?_cons]
  · intro p2 hp2
    unfold check_user
    rw [husers, List.find?_append]
    have hleft : db.users.find?
        (fun r => r.username = u && r.password_hash = sha256_hexdigest p2) = none :=
      List.find?_eq_none.mpr (fun r hr => by simp [hfresh r hr])
    rw [hleft]
    simp [List.find?_cons, Ne.symm hp2]

/-- Witness for C7: `"alice"`/`"secret1"` registers against an empty
database; `check_user` accepts the right password and rejects `"wrong"`. -/
theorem check_user_after_add_user_witness :
    check_user (fun s => String.append "sha256:" s)
        (add_user (fun s => String.append "sha256:" s)
          ⟨[], [], [], [], [], 1, 1, 1, 1, 1⟩ "alice" "secret1").2
        "alice" "secret1" = some (1, "alice") ∧
    check_user (fun s => String.append "sha256:" s)
        (add_user (fun s => String.append "sha256:" s)
          ⟨[], [], [], [], [], 1, 1, 1, 1, 1⟩ "alice" "secret1").2
        "alice" "wrong" = none := by
  have h := check_user_after_add_user (fun s => String.append "sha256:" s)
    ⟨[], [], [], [], [], 1, 1, 1, 1, 1⟩ "alice" "secret1" (by decide)
  exact ⟨h.1, h.2 "wrong" (by decide)⟩

/-! ## Quiz attempt round trip -/

/-- **C8.** After `add_quiz_attempt` succeeds with last-inserted row id `A`,
`get_quiz_attempt_details A` returns the topic together with exactly the
submitted serialized question snapshot, unchanged (hence every serialized
field — question text, options, correct index, explanation, optional
user-answer index — is exactly as submitted).  Hypotheses: the owning user
exists (foreign keys are enforced) and no stored attempt already carries the
fresh id. -/
theorem quiz_attempt_roundtrip (db : DB) (uid : Nat) (topic quiz_date : String)
    (score total_questions : Int) (json : String)
    (huser : userExists db uid = true)
    (hids : ∀ r ∈ db.quiz_attempts, r.attempt_id ≠ db.next_attempt_id) :
    (add_quiz_attempt db uid topic quiz_date score total_questions (some json)).1 =
      some db.next_attempt_id ∧
    get_quiz_attempt_details
        (add_quiz_attempt db uid topic quiz_date score total_questions (some json)).2
        db.next_attempt_id = some (topic, some json) := by
  have hstate : (add_quiz_attempt db uid topic quiz_date score total_questions
      (some json)).2 = { db with
        quiz_attempts := db.quiz_attempts ++
          [⟨db.next_attempt_id, uid, topic, quiz_date, score, total_questions,
            some json⟩],
        next_attempt_id := db.next_attempt_id + 1 } := by
    unfold add_quiz_attempt
    rw [huser]
    simp
  have hres : (add_quiz_attempt db uid topic quiz_date score total_questions
      (some json)).1 = some db.next_attempt_id := by
    unfold add_quiz_attempt
    rw [huser]
    simp
  refine ⟨hres, ?_⟩
  rw [hstate]
  unfold get_quiz_attempt_details
  show ((db.quiz_attempts ++
      [(⟨db.next_attempt_id, uid, topic, quiz_date, score, total_questions,
        some json⟩ : QuizAttemptRow)]).find?
      (fun r : QuizAttemptRow => r.attempt_id = db.next_attempt_id)).map
      (fun r : QuizAttemptRow => (r.topic, r.questions_data)) = some (topic, some json)
  rw [List.find?_append]
  have hleft : db.quiz_attempts.find?
      (fun r => r.attempt_id = db.next_attempt_id) = none :=
    List.find?_eq_none.mpr (fun r hr => by simp [hids r hr])
  rw [hleft]
  simp [List.find?_cons]

/-- Witness for C8: a concrete attempt with a serialized snapshot is stored
and read back verbatim. -/
theorem quiz_attempt_roundtrip_witness :
    get_quiz_attempt_details
        (add_quiz_attempt
          ⟨[⟨1, "alice", "d1"⟩], [], [], [], [], 2, 1, 1, 7, 1⟩
          1 "Algebra" "2024-01-10 09:00:00" 2 3
          (some "serialized-question-snapshot")).2
        7 = some ("Algebra", some "serialized-question-snapshot") := by
  exact (quiz_attempt_roundtrip
    ⟨[⟨1, "alice", "d1"⟩], [], [], [], [], 2, 1, 1, 7, 1⟩
    1 "Algebra" "2024-01-10 09:00:00" 2 3 "serialized-question-snapshot"
    (by decide) (by decide)).2

end StudyAssistant
